import Mathlib

/-!
# Verification of the six7 chat client's protocol layer

Shallow embedding of `src/main.rs` of the `six7` peer-to-peer chatroom CLI.
Rust strings and byte buffers are modelled as `List Nat` (their UTF-8 bytes,
each `< 256` on real inputs); machine integers are `Nat`/`Int`.  The external
`postcard` wire format used by the program (LEB128 varints, zigzag signed
integers, length-prefixed UTF-8 strings, structs as field sequences, booleans
as a single `0`/`1` byte, `from_bytes` ignoring trailing data) is embedded
byte-for-byte.  Bitwise operations of the varint reader (`val & 0x7F`,
`val & 0x80 == 0`) are rendered arithmetically (`val % 0x80`, `val < 0x80`),
which coincides with the source on every byte value.
-/

namespace Six7

/-- Size limit from the source: `MAX_MESSAGE_SIZE_BYTES = 65536`. -/
def MAX_MESSAGE_SIZE_BYTES : Nat := 65536

/-- Identity length from the source: `MAX_IDENTITY_LENGTH = 64`. -/
def MAX_IDENTITY_LENGTH : Nat := 64

/-- Rust `u64::MAX + 1`, the bound enforced by postcard's varint reader. -/
def U64MOD : Nat := 18446744073709551616

/-! ## Postcard varint (LEB128) -/

/-- The loop body of postcard's `try_take_varint_u64`: at most 10 bytes, the
byte at index 9 must be `< 2` when it terminates the varint.  `rem` is the
remaining iteration budget (`10 - i`), `i` the byte index, `out` the
accumulator (`out |= (val & 0x7F) << (7*i)` rendered as
`out + (val % 0x80) * 0x80 ^ i`). -/
def varintGo : Nat → Nat → Nat → List Nat → Option (Nat × List Nat)
  | 0, _, _, _ => none
  | _ + 1, _, _, [] => none
  | rem + 1, i, out, val :: rest =>
    let out2 := out + (val % 0x80) * 0x80 ^ i
    if val % 0x100 < 0x80 then
      if i = 9 ∧ 2 ≤ val then none else some (out2, rest)
    else varintGo rem (i + 1) out2 rest

/-- Postcard's `try_take_varint_u64` / `try_take_varint_usize` (64-bit). -/
def tryTakeVarint (bs : List Nat) : Option (Nat × List Nat) :=
  varintGo 10 0 0 bs

/-- Minimal LEB128 encoding into a bounded buffer: postcard's serializer
writes at most `varint_max::<u64>() = 10` bytes. -/
def varintEncodeAux : Nat → Nat → List Nat
  | 0, _ => []
  | fuel + 1, n =>
    if n < 0x80 then [n]
    else (n % 0x80 + 0x80) :: varintEncodeAux fuel (n / 0x80)

/-- Minimal LEB128 encoding, as produced by postcard's serializer (every
value the program serializes fits in the 10-byte budget). -/
def varintEncode (n : Nat) : List Nat := varintEncodeAux 10 n

/-! ## Zigzag encoding of `i64` -/

/-- Postcard's zigzag decode of a `u64` into an `i64`:
`(n >> 1) as i64 ^ -((n & 1) as i64)`. -/
def zigzagDecode (u : Nat) : Int :=
  if u % 2 = 0 then ((u / 2 : Nat) : Int) else -(((u / 2 : Nat) : Int) + 1)

/-- Postcard's zigzag encode of an `i64`: `((i << 1) ^ (i >> 63)) as u64`. -/
def zigzagEncode (i : Int) : Nat :=
  if 0 ≤ i then 2 * i.toNat else 2 * (-i).toNat - 1

/-! ## UTF-8 validity (Rust `core::str::from_utf8`) -/

/-- A UTF-8 continuation byte: `0x80 ..= 0xBF`. -/
def isCont (b : Nat) : Bool := 0x80 ≤ b && b ≤ 0xBF

/-- The admissible range of the second byte of a multi-byte UTF-8 sequence
with lead byte `b`, from the table in Rust's `core::str::from_utf8`
(overlong forms and surrogates rejected). -/
def sndByteOk (b c : Nat) : Bool :=
  if b = 0xE0 then 0xA0 ≤ c && c ≤ 0xBF
  else if b = 0xED then 0x80 ≤ c && c ≤ 0x9F
  else if b = 0xF0 then 0x90 ≤ c && c ≤ 0xBF
  else if b = 0xF4 then 0x80 ≤ c && c ≤ 0x8F
  else isCont c

/-- A lead byte opening a 3-byte sequence. -/
def isLead3 (b : Nat) : Bool := 0xE0 ≤ b && b ≤ 0xEF

/-- A lead byte opening a 4-byte sequence. -/
def isLead4 (b : Nat) : Bool := 0xF0 ≤ b && b ≤ 0xF4

/-- Pop one complete, valid UTF-8 scalar sequence off the front of the
buffer; `none` if the front is empty, an invalid sequence, or incomplete. -/
def utf8Next : List Nat → Option (List Nat × List Nat)
  | [] => none
  | b :: rest =>
    if b < 0x80 then some ([b], rest)
    else if 0xC2 ≤ b && b ≤ 0xDF then
      match rest with
      | c1 :: r1 => if isCont c1 then some ([b, c1], r1) else none
      | [] => none
    else if isLead3 b then
      match rest with
      | c1 :: c2 :: r2 =>
        if sndByteOk b c1 && isCont c2 then some ([b, c1, c2], r2) else none
      | _ => none
    else if isLead4 b then
      match rest with
      | c1 :: c2 :: c3 :: r3 =>
        if sndByteOk b c1 && isCont c2 && isCont c3 then
          some ([b, c1, c2, c3], r3)
        else none
      | _ => none
    else none

/-- Fuelled validity loop; fuel is an upper bound on the number of scalar
sequences, so `length` fuel always suffices. -/
def utf8ValidAux : Nat → List Nat → Bool
  | _, [] => true
  | 0, _ => false
  | fuel + 1, bs =>
    match utf8Next bs with
    | some (_, r) => utf8ValidAux fuel r
    | none => false

/-- Validity check for UTF-8 byte sequences (Rust `core::str::from_utf8`
succeeds exactly on these). -/
def utf8Valid (bs : List Nat) : Bool := utf8ValidAux bs.length bs

/-- On an invalid or incomplete front sequence, the number of bytes Rust's
`from_utf8_lossy` replaces with one U+FFFD: the maximal subpart, i.e. the
lead byte plus its valid continuation bytes (at least one byte). -/
def utf8BadLen : List Nat → Nat
  | [] => 1
  | b :: rest =>
    if b < 0x80 then 1
    else if 0xC2 ≤ b && b ≤ 0xDF then 1
    else if isLead3 b || isLead4 b then
      match rest with
      | [] => 1
      | c1 :: r1 =>
        if sndByteOk b c1 then
          match r1 with
          | [] => 2
          | c2 :: _ => if isLead4 b && isCont c2 then 3 else if isCont c2 then 2 else 2
        else 1
    else 1

/-- UTF-8 bytes of the replacement character U+FFFD. -/
def replacementBytes : List Nat := [0xEF, 0xBF, 0xBD]

/-- Fuelled body of the lossy decoder. -/
def utf8LossyAux : Nat → List Nat → List Nat
  | _, [] => []
  | 0, _ => []
  | fuel + 1, bs =>
    match utf8Next bs with
    | some (seq, r) => seq ++ utf8LossyAux fuel r
    | none => replacementBytes ++ utf8LossyAux fuel (bs.drop (utf8BadLen bs))

/-- `String::from_utf8_lossy` at byte level: valid scalar sequences are
copied, each maximal invalid subpart becomes one U+FFFD. -/
def utf8Lossy (bs : List Nat) : List Nat := utf8LossyAux bs.length bs

/-! ## Postcard string and `i64` readers/writers -/

/-- Postcard `deserialize_str`: varint length, then that many bytes, which
must be valid UTF-8 (`core::str::from_utf8`). -/
def takeString (bs : List Nat) : Option (List Nat × List Nat) :=
  match tryTakeVarint bs with
  | none => none
  | some (len, r) =>
    if len ≤ r.length then
      if utf8Valid (r.take len) then some (r.take len, r.drop len) else none
    else none

/-- Postcard `deserialize_i64`: varint `u64`, then zigzag decode. -/
def takeI64 (bs : List Nat) : Option (Int × List Nat) :=
  match tryTakeVarint bs with
  | none => none
  | some (u, r) => some (zigzagDecode u, r)

/-- Postcard serialization of a string: varint length then the bytes. -/
def encodeString (s : List Nat) : List Nat :=
  varintEncode s.length ++ s

/-- Postcard serialization of an `i64`: zigzag then varint. -/
def encodeI64 (i : Int) : List Nat :=
  varintEncode (zigzagEncode i)

/-! ## Message records (`DirectMessage`, `GroupMessage`, `AckResponse`) -/

/-- `DirectMessage { id, content, timestamp, message_type }` with string
fields kept as their UTF-8 bytes. -/
structure DirectMessage where
  id : List Nat
  content : List Nat
  timestamp : Int
  message_type : List Nat
deriving DecidableEq, Repr

/-- `GroupMessage { id, content, timestamp, message_type, group_id }`. -/
structure GroupMessage where
  id : List Nat
  content : List Nat
  timestamp : Int
  message_type : List Nat
  group_id : List Nat
deriving DecidableEq, Repr

/-- Postcard encoding of a `DirectMessage` (fields in declaration order). -/
def encodeDirectMessage (m : DirectMessage) : List Nat :=
  encodeString m.id ++ encodeString m.content ++ encodeI64 m.timestamp ++
    encodeString m.message_type

/-- Postcard encoding of a `GroupMessage` (fields in declaration order). -/
def encodeGroupMessage (m : GroupMessage) : List Nat :=
  encodeString m.id ++ encodeString m.content ++ encodeI64 m.timestamp ++
    encodeString m.message_type ++ encodeString m.group_id

/-- `postcard::take_from_bytes::<DirectMessage>`: fields in order, returning
the unread remainder. -/
def takeDirectMessage (bs : List Nat) : Option (DirectMessage × List Nat) :=
  match takeString bs with
  | none => none
  | some (id, r1) =>
    match takeString r1 with
    | none => none
    | some (content, r2) =>
      match takeI64 r2 with
      | none => none
      | some (ts, r3) =>
        match takeString r3 with
        | none => none
        | some (mt, r4) => some (⟨id, content, ts, mt⟩, r4)

/-- `postcard::from_bytes::<DirectMessage>`: trailing bytes are ignored. -/
def decodeDirectMessage (bs : List Nat) : Option DirectMessage :=
  (takeDirectMessage bs).map Prod.fst

/-- `postcard::take_from_bytes::<GroupMessage>`. -/
def takeGroupMessage (bs : List Nat) : Option (GroupMessage × List Nat) :=
  match takeString bs with
  | none => none
  | some (id, r1) =>
    match takeString r1 with
    | none => none
    | some (content, r2) =>
      match takeI64 r2 with
      | none => none
      | some (ts, r3) =>
        match takeString r3 with
        | none => none
        | some (mt, r4) =>
          match takeString r4 with
          | none => none
          | some (gid, r5) => some (⟨id, content, ts, mt, gid⟩, r5)

/-- `postcard::from_bytes::<GroupMessage>`: trailing bytes are ignored. -/
def decodeGroupMessage (bs : List Nat) : Option GroupMessage :=
  (takeGroupMessage bs).map Prod.fst

/-- Postcard decode of `AckResponse { ack: bool }`: one byte, `0` is
`false`, `1` is `true`, anything else is `DeserializeBadBool`; trailing
bytes are ignored by `from_bytes`. -/
def decodeAckResponse (bs : List Nat) : Option Bool :=
  match bs with
  | [] => none
  | b :: _ => if b = 0 then some false else if b = 1 then some true else none

/-- `AckResponse::to_bytes` (postcard bool is a single byte). -/
def ackToBytes (ack : Bool) : List Nat := [if ack then 1 else 0]

/-- `AckResponse::success().to_bytes()`. -/
def ackSuccessBytes : List Nat := ackToBytes true

/-! ## String constants of the program (as UTF-8 byte lists) -/

/-- ASCII bytes of `"received"`, the legacy acknowledgment token
(`b"received"` in the DM handler, line 476). -/
def receivedBytes : List Nat := [114, 101, 99, 101, 105, 118, 101, 100]

/-- ASCII bytes of `"text"`. -/
def textBytes : List Nat := [116, 101, 120, 116]

/-- ASCII bytes of `"contactRequest"`. -/
def contactRequestBytes : List Nat :=
  [99, 111, 110, 116, 97, 99, 116, 82, 101, 113, 117, 101, 115, 116]

/-- ASCII bytes of `"contactAccepted"`. -/
def contactAcceptedBytes : List Nat :=
  [99, 111, 110, 116, 97, 99, 116, 65, 99, 99, 101, 112, 116, 101, 100]

/-- ASCII bytes of `"readReceipt"`. -/
def readReceiptBytes : List Nat :=
  [114, 101, 97, 100, 82, 101, 99, 101, 105, 112, 116]

/-- ASCII bytes of `"groupInvite"`. -/
def groupInviteBytes : List Nat :=
  [103, 114, 111, 117, 112, 73, 110, 118, 105, 116, 101]

/-- ASCII bytes of `"vibe"`. -/
def vibeBytes : List Nat := [118, 105, 98, 101]

/-- ASCII bytes of `"profileUpdate"`. -/
def profileUpdateBytes : List Nat :=
  [112, 114, 111, 102, 105, 108, 101, 85, 112, 100, 97, 116, 101]

/-- ASCII bytes of `" [contact request]"`. -/
def tagContactRequest : List Nat :=
  [32, 91, 99, 111, 110, 116, 97, 99, 116, 32, 114, 101, 113, 117, 101, 115, 116, 93]

/-- ASCII bytes of `" [contact accepted]"`. -/
def tagContactAccepted : List Nat :=
  [32, 91, 99, 111, 110, 116, 97, 99, 116, 32, 97, 99, 99, 101, 112, 116, 101, 100, 93]

/-- ASCII bytes of `" [read receipt]"`. -/
def tagReadReceipt : List Nat :=
  [32, 91, 114, 101, 97, 100, 32, 114, 101, 99, 101, 105, 112, 116, 93]

/-- ASCII bytes of `" [group invite]"`. -/
def tagGroupInvite : List Nat :=
  [32, 91, 103, 114, 111, 117, 112, 32, 105, 110, 118, 105, 116, 101, 93]

/-- ASCII bytes of `" [vibe]"`. -/
def tagVibe : List Nat := [32, 91, 118, 105, 98, 101, 93]

/-- ASCII bytes of `" [profile update]"`. -/
def tagProfileUpdate : List Nat :=
  [32, 91, 112, 114, 111, 102, 105, 108, 101, 32, 117, 112, 100, 97, 116, 101, 93]

/-- ASCII bytes of `"chat/"`, the topic namespace of rooms. -/
def chatSlashBytes : List Nat := [99, 104, 97, 116, 47]

/-- ASCII bytes of `"sent"`, the `/contact` confirmed-delivery marker. -/
def sentBytes : List Nat := [115, 101, 110, 116]

/-- ASCII bytes of `"sent (legacy peer)"`, the `/contact` fallback marker. -/
def sentLegacyBytes : List Nat :=
  [115, 101, 110, 116, 32, 40, 108, 101, 103, 97, 99, 121, 32, 112, 101, 101, 114, 41]

/-- UTF-8 bytes of `"✓"` (U+2713), the `/dm` confirmed-delivery marker. -/
def checkMarkBytes : List Nat := [226, 156, 147]

/-- ASCII bytes of `"?"`, the `/dm` ambiguous-response marker. -/
def questionMarkBytes : List Nat := [63]

/-! ## Text helpers of the source (`sanitize_text`, split patterns) -/

/-- `sanitize_text` at byte level: on valid UTF-8 input, drops exactly the
characters with `char::is_control()` (U+0000–U+001F as single bytes,
U+007F, and U+0080–U+009F as `C2 80`–`C2 9F` pairs) except `\n` and `\t`. -/
def sanitize_text : List Nat → List Nat
  | [] => []
  | [b] =>
    if b = 9 ∨ b = 10 then [b]
    else if b < 0x20 ∨ b = 0x7F then []
    else [b]
  | b :: c :: r2 =>
    if b = 9 ∨ b = 10 then b :: sanitize_text (c :: r2)
    else if b < 0x20 ∨ b = 0x7F then sanitize_text (c :: r2)
    else if b = 0xC2 ∧ 0x80 ≤ c ∧ c ≤ 0x9F then sanitize_text r2
    else b :: sanitize_text (c :: r2)

/-- Does `s` start with the pattern `p`? -/
def startsWith : List Nat → List Nat → Bool
  | [], _ => true
  | _ :: _, [] => false
  | p :: ps, x :: xs => p = x && startsWith ps xs

/-- Rust `str::split_once(pat)`: split around the first occurrence of the
pattern, `none` if it does not occur. -/
def splitOnce : List Nat → List Nat → Option (List Nat × List Nat)
  | [], pat => if startsWith pat [] then some ([], []) else none
  | c :: rest, pat =>
    if startsWith pat (c :: rest) then some ([], (c :: rest).drop pat.length)
    else (splitOnce rest pat).map fun p => (c :: p.1, p.2)

/-- Rust `str::splitn(n, sep)` for a single-byte separator, as a list of at
most `n` parts. -/
def splitnByte : Nat → Nat → List Nat → List (List Nat)
  | 0, _, _ => []
  | 1, _, s => [s]
  | n + 2, sep, s =>
    match splitOnce s [sep] with
    | none => [s]
    | some (a, b) => a :: splitnByte (n + 1) sep b

/-! ## Peer registry -/

/-- The peer registry `HashMap<String, String>` as an association list from
8-char identity prefixes to display names (keys kept distinct by
construction). -/
abbrev Registry := List (List Nat × List Nat)

/-- `HashMap::get` on the registry. -/
def lookupName : Registry → List Nat → Option (List Nat)
  | [], _ => none
  | (k, v) :: r, key => if k = key then some v else lookupName r key

/-- The peer-tracking block of the Pub/Sub handler (lines 419–427):
`if peers.len() > 1000 { peers.clear(); }` then
`peers.entry(key).or_insert_with(|| name)`. -/
def observe (reg : Registry) (key name : List Nat) : Registry :=
  let reg1 := if 1000 < reg.length then [] else reg
  match lookupName reg1 key with
  | some _ => reg1
  | none => (key, name) :: reg1

/-- `&s[..8.min(s.len())]`: the (at most) 8-byte identity prefix. -/
def shortId (s : List Nat) : List Nat := s.take (min 8 s.length)

/-- A sequence of `observe` operations applied to the initially empty
registry (the only way the program ever builds the registry). -/
def applyObserve (ops : List (List Nat × List Nat)) : Registry :=
  ops.foldl (fun r kv => observe r kv.1 kv.2) []

/-! ## Pub/Sub consumer (lines 376–431) -/

/-- One item of the pub/sub stream: `{ topic, from, data }` (`from` is the
transport-authenticated sender identity). -/
structure InboundPubSub where
  topic : List Nat
  sender : List Nat
  data : List Nat
deriving DecidableEq, Repr

/-- `format!("chat/{room}")`: the derived topic of a room. -/
def roomTopic (room : List Nat) : List Nat := chatSlashBytes ++ room

/-- The legacy plain-text sender-name extraction (lines 408–413):
`text.split_once(": ").and_then(|(p, _)| p.split_once('@'))
     .map(|(name, _)| name).unwrap_or(id_prefix)`. -/
def legacySenderName (text idPre : List Nat) : List Nat :=
  match splitOnce text [58, 32] with
  | none => idPre
  | some (p, _) =>
    match splitOnce p [64] with
    | none => idPre
    | some (name, _) => name

/-- One iteration of the Pub/Sub handler loop on one inbound message:
returns the updated registry and the rendered `[room]` line (`none` when
the message is dropped by the size/topic/self filters). -/
def pubsubStep (room myIdentity : List Nat) (reg : Registry)
    (msg : InboundPubSub) : Registry × Option (List Nat) :=
  if MAX_MESSAGE_SIZE_BYTES < msg.data.length then (reg, none)
  else if msg.topic ≠ roomTopic room then (reg, none)
  else if msg.sender = myIdentity then (reg, none)
  else
    let idPre := shortId msg.sender
    let p : List Nat × List Nat :=
      match decodeGroupMessage msg.data with
      | some gm =>
        let name := (lookupName reg idPre).getD idPre
        (name, name ++ [64] ++ idPre ++ [58, 32] ++ gm.content)
      | none =>
        let text := utf8Lossy msg.data
        (legacySenderName text idPre, text)
    (observe reg idPre p.1, some (sanitize_text p.2))

/-! ## Direct-message consumer (lines 434–480) -/

/-- The observable actions of one DM-handler iteration: a printed line
(broken into the sender prefix, the tag or kind annotation, and the
sanitized content) or a reply sent on the response channel. -/
inductive DmEvent where
  | printedLine (fromShort tag content : List Nat)
  | reply (bytes : List Nat)
deriving DecidableEq, Repr

/-- The `match dm.message_type.as_str()` table (lines 442–449): `some tag`
for the recognized kinds, `none` for the fall-through `other` arm. -/
def dmKindTag (mt : List Nat) : Option (List Nat) :=
  if mt = textBytes then some []
  else if mt = contactRequestBytes then some tagContactRequest
  else if mt = contactAcceptedBytes then some tagContactAccepted
  else if mt = readReceiptBytes then some tagReadReceipt
  else if mt = groupInviteBytes then some tagGroupInvite
  else if mt = vibeBytes then some tagVibe
  else if mt = profileUpdateBytes then some tagProfileUpdate
  else none

/-- One iteration of the DM handler loop on one inbound request
`(from, data, response_tx)`: the list of observable actions, in order. -/
def dmStep (sender data : List Nat) : List DmEvent :=
  if MAX_MESSAGE_SIZE_BYTES < data.length then []
  else
    let fromShort := shortId sender
    match decodeDirectMessage data with
    | some dm =>
      match dmKindTag dm.message_type with
      | none =>
        [.printedLine fromShort dm.message_type (sanitize_text dm.content),
         .reply ackSuccessBytes]
      | some tag =>
        [.printedLine fromShort tag (sanitize_text dm.content),
         .reply ackSuccessBytes]
    | none =>
      [.printedLine fromShort [] (sanitize_text (utf8Lossy data)),
       .reply receivedBytes]

/-- The replies a DM-handler iteration sends on its response channel. -/
def dmReplies (sender data : List Nat) : List (List Nat) :=
  (dmStep sender data).filterMap fun e =>
    match e with
    | .reply b => some b
    | .printedLine _ _ _ => none

/-! ## Command dispatcher: `/dm`, `/contact` (lines 702–799) -/

/-- `isHexDigit` of the `hex` crate: `0-9`, `a-f`, `A-F`. -/
def isHexDigit (b : Nat) : Bool :=
  (48 ≤ b && b ≤ 57) || (97 ≤ b && b ≤ 102) || (65 ≤ b && b ≤ 70)

/-- The outcome of parsing and validating a `/dm ` line, up to (and
including whether) the network send is attempted. -/
inductive DmCmdAction where
  | usage
  | tooLarge
  | invalidIdentity
  | send (identity message : List Nat)
deriving DecidableEq, Repr

/-- The `/dm ` command arm (lines 702–727): `splitn(3, ' ')`, usage check,
size check on the message, then identity validation
(`len != 64 || hex::decode err`, the latter being a non-hex byte at even
length 64); only then is `DirectMessage::text(message)` sent. -/
def dmCommand (line : List Nat) : DmCmdAction :=
  if (splitnByte 3 32 line).length < 3 then .usage
  else if MAX_MESSAGE_SIZE_BYTES <
      (((splitnByte 3 32 line).get? 2).getD []).length then .tooLarge
  else if (((splitnByte 3 32 line).get? 1).getD []).length ≠
        MAX_IDENTITY_LENGTH ∨
      ¬ (((splitnByte 3 32 line).get? 1).getD []).all isHexDigit then
    .invalidIdentity
  else .send (((splitnByte 3 32 line).get? 1).getD [])
    (((splitnByte 3 32 line).get? 2).getD [])

/-- The result of an awaited `send` with its 10-second timeout:
`Ok(Ok(response))`, `Ok(Err(e))`, or `Err(Elapsed)`. -/
inductive SendOutcome where
  | response (bytes : List Nat)
  | sendError
  | timeout
deriving DecidableEq, Repr

/-- What the dispatcher prints for one completed `/dm` or `/contact`
send: the success line with its ack marker, the transport-error line, or
the distinct timeout (`peer unreachable`) line. -/
inductive CmdReport where
  | printedAck (mark : List Nat)
  | failedSend
  | unreachable
deriving DecidableEq, Repr

/-- The `/dm` ack interpretation (lines 736–745): structured
`AckResponse` with `ack` set gives `"✓"`; otherwise the response is
compared (lossily decoded) against `"received"`, giving `"✓"` on a match
and `"?"` otherwise. -/
def dmAckMark (resp : List Nat) : List Nat :=
  match decodeAckResponse resp with
  | some true => checkMarkBytes
  | _ => if utf8Lossy resp = receivedBytes then checkMarkBytes
         else questionMarkBytes

/-- The full `/dm` match on the awaited send outcome (lines 729–755). -/
def dmSendReport (o : SendOutcome) : CmdReport :=
  match o with
  | .response r => .printedAck (dmAckMark r)
  | .sendError => .failedSend
  | .timeout => .unreachable

/-- The `/contact` status interpretation (lines 786–789): structured
`AckResponse` with `ack` set gives `"sent"`, anything else gives
`"sent (legacy peer)"`. -/
def contactStatus (resp : List Nat) : List Nat :=
  match decodeAckResponse resp with
  | some true => sentBytes
  | _ => sentLegacyBytes

/-- The full `/contact` match on the awaited send outcome (lines 779–799). -/
def contactSendReport (o : SendOutcome) : CmdReport :=
  match o with
  | .response r => .printedAck (contactStatus r)
  | .sendError => .failedSend
  | .timeout => .unreachable

/-! ## Well-formedness of message values -/

/-- A string value postcard can serialize and re-read: its length fits the
varint reader and its bytes are valid UTF-8.  Every string produced by a
successful decode satisfies this. -/
def WfString (s : List Nat) : Prop := s.length < U64MOD ∧ utf8Valid s = true

/-- An `i64` value: the zigzag image of a `u64`. -/
def WfTimestamp (t : Int) : Prop := -(2 ^ 63) ≤ t ∧ t < 2 ^ 63

/-- Well-formed `DirectMessage` value. -/
def WfDirectMessage (m : DirectMessage) : Prop :=
  WfString m.id ∧ WfString m.content ∧ WfTimestamp m.timestamp ∧
    WfString m.message_type

/-- Well-formed `GroupMessage` value. -/
def WfGroupMessage (m : GroupMessage) : Prop :=
  WfString m.id ∧ WfString m.content ∧ WfTimestamp m.timestamp ∧
    WfString m.message_type ∧ WfString m.group_id

instance (s : List Nat) : Decidable (WfString s) := by
  unfold WfString; infer_instance

instance (t : Int) : Decidable (WfTimestamp t) := by
  unfold WfTimestamp; infer_instance

instance (m : DirectMessage) : Decidable (WfDirectMessage m) := by
  unfold WfDirectMessage; infer_instance

instance (m : GroupMessage) : Decidable (WfGroupMessage m) := by
  unfold WfGroupMessage; infer_instance

/-- `GroupMessage::text(content, group_id)` with the random id and the
clock value passed explicitly. -/
def mkTextGroupMessage (id : List Nat) (ts : Int) (content gid : List Nat) :
    GroupMessage :=
  ⟨id, content, ts, textBytes, gid⟩

/-! ## Varint lemmas -/

theorem varintEncodeAux_succ (fuel n : Nat) :
    varintEncodeAux (fuel + 1) n =
      if n < 0x80 then [n]
      else (n % 0x80 + 0x80) :: varintEncodeAux fuel (n / 0x80) := rfl

/-- The fuel argument is irrelevant as soon as it covers the digits. -/
theorem varintEncodeAux_irrel : ∀ f1 f2 n, 0 < f1 → 0 < f2 →
    n < 0x80 ^ f1 → n < 0x80 ^ f2 →
    varintEncodeAux f1 n = varintEncodeAux f2 n := by
  intro f1
  induction f1 with
  | zero => omega
  | succ g1 ih =>
    intro f2 n _ hf2 hn1 hn2
    match f2, hf2 with
    | g2 + 1, _ =>
      rw [varintEncodeAux_succ, varintEncodeAux_succ]
      by_cases h : n < 0x80
      · rw [if_pos h, if_pos h]
      · rw [if_neg h, if_neg h]
        have hg1 : 0 < g1 := by
          by_contra hg
          have : g1 = 0 := by omega
          subst this
          simp at hn1
          omega
        have hg2 : 0 < g2 := by
          by_contra hg
          have : g2 = 0 := by omega
          subst this
          simp at hn2
          omega
        have hd1 : n / 0x80 < 0x80 ^ g1 := by
          rw [Nat.div_lt_iff_lt_mul (by norm_num : (0:Nat) < 0x80)]
          calc n < 0x80 ^ (g1 + 1) := hn1
          _ = 0x80 ^ g1 * 0x80 := by rw [pow_succ]
        have hd2 : n / 0x80 < 0x80 ^ g2 := by
          rw [Nat.div_lt_iff_lt_mul (by norm_num : (0:Nat) < 0x80)]
          calc n < 0x80 ^ (g2 + 1) := hn2
          _ = 0x80 ^ g2 * 0x80 := by rw [pow_succ]
        rw [ih g2 (n / 0x80) hg1 hg2 hd1 hd2]

theorem varintEncode_single {n : Nat} (h : n < 0x80) :
    varintEncode n = [n] := by
  show varintEncodeAux (9 + 1) n = [n]
  rw [varintEncodeAux_succ, if_pos h]

theorem varintEncode_cons {n : Nat} (h : ¬ n < 0x80) (hn : n < 2 ^ 64) :
    varintEncode n = (n % 0x80 + 0x80) :: varintEncode (n / 0x80) := by
  show varintEncodeAux (9 + 1) n = _
  rw [varintEncodeAux_succ, if_neg h]
  congr 1
  refine varintEncodeAux_irrel 9 10 (n / 0x80) (by norm_num) (by norm_num)
    ?_ ?_
  · rw [Nat.div_lt_iff_lt_mul (by norm_num : (0:Nat) < 0x80)]
    calc n < 2 ^ 64 := hn
    _ ≤ 0x80 ^ 9 * 0x80 := by norm_num
  · rw [Nat.div_lt_iff_lt_mul (by norm_num : (0:Nat) < 0x80)]
    calc n < 2 ^ 64 := hn
    _ ≤ 0x80 ^ 10 * 0x80 := by norm_num

/-- Reading back a minimally encoded varint from position `i` of the loop
recovers the value, shifted into place, with the remainder untouched. -/
theorem varintGo_encode (n : Nat) : ∀ i out rest, i ≤ 9 →
    n < 2 ^ (64 - 7 * i) →
    varintGo (10 - i) i out (varintEncode n ++ rest) =
      some (out + n * 0x80 ^ i, rest) := by
  induction n using Nat.strong_induction_on with
  | _ n ih =>
    intro i out rest hi hn
    have hn64 : n < 2 ^ 64 := by
      calc n < 2 ^ (64 - 7 * i) := hn
      _ ≤ 2 ^ 64 := Nat.pow_le_pow_right (by norm_num) (by omega)
    by_cases h : n < 0x80
    · rw [varintEncode_single h]
      have h10 : 10 - i = (9 - i) + 1 := by omega
      rw [h10]
      show varintGo ((9 - i) + 1) i out (n :: rest) = _
      have hmod : n % 0x100 = n := Nat.mod_eq_of_lt (by omega)
      have hterm : ¬ (i = 9 ∧ 2 ≤ n) := by
        rintro ⟨rfl, h2⟩
        simp only [show (64 : Nat) - 7 * 9 = 1 by norm_num, pow_one] at hn
        omega
      simp only [varintGo, hmod, if_pos h, if_neg hterm,
        Nat.mod_eq_of_lt h]
    · rw [varintEncode_cons h hn64]
      have hi8 : i ≤ 8 := by
        by_contra hgt
        have : i = 9 := by omega
        subst this
        simp only [show (64 : Nat) - 7 * 9 = 1 by norm_num, pow_one] at hn
        omega
      have h10 : 10 - i = (10 - (i + 1)) + 1 := by omega
      rw [h10]
      show varintGo ((10 - (i + 1)) + 1) i out
        ((n % 0x80 + 0x80) :: (varintEncode (n / 0x80) ++ rest)) = _
      have hval : ¬ (n % 0x80 + 0x80) % 0x100 < 0x80 := by
        have : n % 0x80 < 0x80 := Nat.mod_lt _ (by norm_num)
        have : (n % 0x80 + 0x80) % 0x100 = n % 0x80 + 0x80 :=
          Nat.mod_eq_of_lt (by omega)
        omega
      simp only [varintGo, if_neg hval]
      have hdiv : n / 0x80 < 2 ^ (64 - 7 * (i + 1)) := by
        rw [Nat.div_lt_iff_lt_mul (by norm_num : (0:Nat) < 0x80)]
        calc n < 2 ^ (64 - 7 * i) := hn
        _ = 2 ^ (64 - 7 * (i + 1)) * 0x80 := by
          rw [show (0x80 : Nat) = 2 ^ 7 by norm_num, ← pow_add]
          congr 1
          omega
      have := ih (n / 0x80) (Nat.div_lt_self (by omega) (by norm_num))
        (i + 1) (out + (n % 0x80 + 0x80) % 0x80 * 0x80 ^ i) rest
        (by omega) hdiv
      rw [this]
      congr 2
      have hm : (n % 0x80 + 0x80) % 0x80 = n % 0x80 := by
        omega
      rw [hm, pow_succ]
      have : n % 0x80 * 0x80 ^ i + n / 0x80 * (0x80 ^ i * 0x80) =
          (n % 0x80 + 0x80 * (n / 0x80)) * 0x80 ^ i := by ring
      rw [add_assoc, this, Nat.mod_add_div]

/-- Decoding a minimal varint encoding of `n < 2^64` yields `n` and leaves
the remainder untouched. -/
theorem tryTakeVarint_encode {n : Nat} (hn : n < U64MOD) (rest : List Nat) :
    tryTakeVarint (varintEncode n ++ rest) = some (n, rest) := by
  have := varintGo_encode n 0 0 rest (by omega)
    (by simpa [U64MOD] using hn)
  simpa [tryTakeVarint] using this

/-- Any value the varint reader accepts is below `2^64`. -/
theorem varintGo_lt : ∀ fuel i out bs n r, fuel + i = 10 →
    out < 0x80 ^ i → varintGo fuel i out bs = some (n, r) → n < U64MOD := by
  intro fuel
  induction fuel with
  | zero => intro i out bs n r _ _ h; simp [varintGo] at h
  | succ f ihf =>
    intro i out bs n r hfi hout h
    match bs with
    | [] => simp [varintGo] at h
    | val :: rest =>
      simp only [varintGo] at h
      by_cases hlow : val % 0x100 < 0x80
      · rw [if_pos hlow] at h
        by_cases hterm : i = 9 ∧ 2 ≤ val
        · rw [if_pos hterm] at h; exact absurd h (by simp)
        · rw [if_neg hterm] at h
          simp only [Option.some.injEq, Prod.mk.injEq] at h
          have hn : n = out + val % 0x80 * 0x80 ^ i := h.1.symm
          by_cases hi9 : i = 9
          · subst hi9
            have hval2 : val < 2 := by
              rcases Nat.lt_or_ge val 2 with h2 | h2
              · exact h2
              · exact absurd ⟨rfl, h2⟩ hterm
            have : val % 0x80 = val := Nat.mod_eq_of_lt (by omega)
            rw [hn, this]
            have h1 : out < 0x80 ^ 9 := hout
            have h2 : val * 0x80 ^ 9 ≤ 1 * 0x80 ^ 9 :=
              Nat.mul_le_mul_right _ (by omega)
            have : (0x80 : Nat) ^ 9 = 2 ^ 63 := by norm_num
            rw [this] at h1 h2
            simp only [U64MOD]
            omega
          · have hle : i ≤ 8 := by omega
            have hsmall : n < 0x80 ^ (i + 1) := by
              rw [hn, pow_succ]
              have : val % 0x80 ≤ 0x7F := by omega
              have h2 : val % 0x80 * 0x80 ^ i ≤ 0x7F * 0x80 ^ i :=
                Nat.mul_le_mul_right _ this
              have hpos : (0:Nat) < 0x80 ^ i := Nat.pos_pow_of_pos _ (by norm_num)
              calc out + val % 0x80 * 0x80 ^ i
                  ≤ out + 0x7F * 0x80 ^ i := by omega
                _ < 0x80 ^ i + 0x7F * 0x80 ^ i := by omega
                _ = 0x80 ^ i * 0x80 := by ring
            have : (0x80 : Nat) ^ (i + 1) ≤ 0x80 ^ 9 :=
              Nat.pow_le_pow_right (by norm_num) (by omega)
            have h9 : (0x80 : Nat) ^ 9 = 2 ^ 63 := by norm_num
            simp only [U64MOD]
            omega
      · rw [if_neg hlow] at h
        refine ihf (i + 1) (out + val % 0x80 * 0x80 ^ i) rest n r
          (by omega) ?_ h
        rw [pow_succ]
        have : val % 0x80 ≤ 0x7F := by omega
        have h2 : val % 0x80 * 0x80 ^ i ≤ 0x7F * 0x80 ^ i :=
          Nat.mul_le_mul_right _ this
        calc out + val % 0x80 * 0x80 ^ i
            ≤ out + 0x7F * 0x80 ^ i := by omega
          _ < 0x80 ^ i + 0x7F * 0x80 ^ i := by omega
          _ = 0x80 ^ i * 0x80 := by ring

/-- Any successfully read varint value is below `2^64`. -/
theorem tryTakeVarint_lt {bs : List Nat} {n : Nat} {r : List Nat}
    (h : tryTakeVarint bs = some (n, r)) : n < U64MOD :=
  varintGo_lt 10 0 0 bs n r rfl (by norm_num) h

/-! ## Zigzag lemmas -/

/-- Zigzag decoding a `u64` lands in the `i64` range. -/
theorem zigzagDecode_wf {u : Nat} (hu : u < U64MOD) :
    WfTimestamp (zigzagDecode u) := by
  simp only [U64MOD] at hu
  unfold zigzagDecode WfTimestamp
  by_cases h : u % 2 = 0
  · rw [if_pos h]
    omega
  · rw [if_neg h]
    omega

/-- Zigzag encoding an `i64`-range value fits in a `u64`. -/
theorem zigzagEncode_lt {t : Int} (ht : WfTimestamp t) :
    zigzagEncode t < U64MOD := by
  obtain ⟨h1, h2⟩ := ht
  unfold zigzagEncode
  by_cases h : 0 ≤ t
  · rw [if_pos h]
    have : t.toNat < 2 ^ 63 := by omega
    simp only [U64MOD]
    omega
  · rw [if_neg h]
    have : (-t).toNat ≤ 2 ^ 63 := by omega
    simp only [U64MOD]
    omega

/-- Zigzag decode is a left inverse of zigzag encode on the `i64` range. -/
theorem zigzagDecode_encode {t : Int} (ht : WfTimestamp t) :
    zigzagDecode (zigzagEncode t) = t := by
  obtain ⟨h1, _⟩ := ht
  unfold zigzagEncode zigzagDecode
  by_cases h : 0 ≤ t
  · rw [if_pos h]
    have hmod : 2 * t.toNat % 2 = 0 := by omega
    rw [if_pos hmod]
    have : 2 * t.toNat / 2 = t.toNat := by omega
    rw [this]
    omega
  · rw [if_neg h]
    have hk : 1 ≤ (-t).toNat := by omega
    have hmod : (2 * (-t).toNat - 1) % 2 = 1 := by omega
    rw [if_neg (by omega)]
    have : (2 * (-t).toNat - 1) / 2 = (-t).toNat - 1 := by omega
    rw [this]
    have : (((-t).toNat - 1 : Nat) : Int) = -t - 1 := by omega
    rw [this]
    ring

/-! ## String and `i64` reader lemmas -/

/-- Reading back a serialized well-formed string recovers it exactly. -/
theorem takeString_encode {s : List Nat} (hs : WfString s) (rest : List Nat) :
    takeString (encodeString s ++ rest) = some (s, rest) := by
  obtain ⟨hlen, hval⟩ := hs
  unfold takeString encodeString
  rw [List.append_assoc, tryTakeVarint_encode hlen]
  simp [List.take_left, List.drop_left, hval]

/-- A successfully read string is well-formed. -/
theorem takeString_wf {bs s r : List Nat}
    (h : takeString bs = some (s, r)) : WfString s := by
  unfold takeString at h
  split at h
  · simp at h
  · rename_i len r1 hv
    split at h
    · split at h
      · rename_i hle hu
        simp only [Option.some.injEq, Prod.mk.injEq] at h
        obtain ⟨hs, _⟩ := h
        subst hs
        refine ⟨?_, hu⟩
        rw [List.length_take, Nat.min_eq_left hle]
        exact tryTakeVarint_lt hv
      · simp at h
    · simp at h

/-- Reading back a serialized `i64`-range timestamp recovers it exactly. -/
theorem takeI64_encode {t : Int} (ht : WfTimestamp t) (rest : List Nat) :
    takeI64 (encodeI64 t ++ rest) = some (t, rest) := by
  unfold takeI64 encodeI64
  rw [tryTakeVarint_encode (zigzagEncode_lt ht)]
  simp [zigzagDecode_encode ht]

/-- A successfully read timestamp is in the `i64` range. -/
theorem takeI64_wf {bs : List Nat} {t : Int} {r : List Nat}
    (h : takeI64 bs = some (t, r)) : WfTimestamp t := by
  unfold takeI64 at h
  split at h
  · simp at h
  · rename_i u r1 hv
    simp only [Option.some.injEq, Prod.mk.injEq] at h
    obtain ⟨ht, _⟩ := h
    subst ht
    exact zigzagDecode_wf (tryTakeVarint_lt hv)

/-! ## Message-level codec lemmas -/

/-- Encoding a well-formed `DirectMessage` and reading it back is the
identity, with any trailing bytes untouched. -/
theorem takeDirectMessage_encode {m : DirectMessage} (hm : WfDirectMessage m)
    (rest : List Nat) :
    takeDirectMessage (encodeDirectMessage m ++ rest) = some (m, rest) := by
  obtain ⟨h1, h2, h3, h4⟩ := hm
  unfold takeDirectMessage encodeDirectMessage
  rw [List.append_assoc, List.append_assoc, List.append_assoc]
  simp only [takeString_encode h1, takeString_encode h2,
    takeI64_encode h3, takeString_encode h4]

/-- A successfully decoded `DirectMessage` is well-formed. -/
theorem takeDirectMessage_wf {bs : List Nat} {m : DirectMessage}
    {r : List Nat} (h : takeDirectMessage bs = some (m, r)) :
    WfDirectMessage m := by
  unfold takeDirectMessage at h
  split at h
  · simp at h
  · rename_i id r1 hid
    split at h
    · simp at h
    · rename_i content r2 hcontent
      split at h
      · simp at h
      · rename_i ts r3 hts
        split at h
        · simp at h
        · rename_i mt r4 hmt
          simp only [Option.some.injEq, Prod.mk.injEq] at h
          obtain ⟨hm, _⟩ := h
          subst hm
          exact ⟨takeString_wf hid, takeString_wf hcontent,
            takeI64_wf hts, takeString_wf hmt⟩

/-- Encoding a well-formed `GroupMessage` and reading it back is the
identity, with any trailing bytes untouched. -/
theorem takeGroupMessage_encode {m : GroupMessage} (hm : WfGroupMessage m)
    (rest : List Nat) :
    takeGroupMessage (encodeGroupMessage m ++ rest) = some (m, rest) := by
  obtain ⟨h1, h2, h3, h4, h5⟩ := hm
  unfold takeGroupMessage encodeGroupMessage
  rw [List.append_assoc, List.append_assoc, List.append_assoc,
    List.append_assoc]
  simp only [takeString_encode h1, takeString_encode h2,
    takeI64_encode h3, takeString_encode h4, takeString_encode h5]

/-- A successfully decoded `GroupMessage` is well-formed. -/
theorem takeGroupMessage_wf {bs : List Nat} {m : GroupMessage}
    {r : List Nat} (h : takeGroupMessage bs = some (m, r)) :
    WfGroupMessage m := by
  unfold takeGroupMessage at h
  split at h
  · simp at h
  · rename_i id r1 hid
    split at h
    · simp at h
    · rename_i content r2 hcontent
      split at h
      · simp at h
      · rename_i ts r3 hts
        split at h
        · simp at h
        · rename_i mt r4 hmt
          split at h
          · simp at h
          · rename_i gid r5 hgid
            simp only [Option.some.injEq, Prod.mk.injEq] at h
            obtain ⟨hm, _⟩ := h
            subst hm
            exact ⟨takeString_wf hid, takeString_wf hcontent,
              takeI64_wf hts, takeString_wf hmt, takeString_wf hgid⟩

/-- `from_bytes` of the encoding of a well-formed `DirectMessage`. -/
theorem decodeDirectMessage_encode {m : DirectMessage}
    (hm : WfDirectMessage m) :
    decodeDirectMessage (encodeDirectMessage m) = some m := by
  unfold decodeDirectMessage
  have := takeDirectMessage_encode hm []
  rw [List.append_nil] at this
  rw [this]
  rfl

/-- `from_bytes` of the encoding of a well-formed `GroupMessage`. -/
theorem decodeGroupMessage_encode {m : GroupMessage}
    (hm : WfGroupMessage m) :
    decodeGroupMessage (encodeGroupMessage m) = some m := by
  unfold decodeGroupMessage
  have := takeGroupMessage_encode hm []
  rw [List.append_nil] at this
  rw [this]
  rfl

/-- What a `DirectMessage` decode success says about the value. -/
theorem decodeDirectMessage_wf {bs : List Nat} {m : DirectMessage}
    (h : decodeDirectMessage bs = some m) : WfDirectMessage m := by
  unfold decodeDirectMessage at h
  match hv : takeDirectMessage bs with
  | none => rw [hv] at h; simp at h
  | some (m', r) =>
    rw [hv] at h
    simp at h
    subst h
    exact takeDirectMessage_wf hv

/-- What a `GroupMessage` decode success says about the value. -/
theorem decodeGroupMessage_wf {bs : List Nat} {m : GroupMessage}
    (h : decodeGroupMessage bs = some m) : WfGroupMessage m := by
  unfold decodeGroupMessage at h
  match hv : takeGroupMessage bs with
  | none => rw [hv] at h; simp at h
  | some (m', r) =>
    rw [hv] at h
    simp at h
    subst h
    exact takeGroupMessage_wf hv

/-! ## DM-handler helper lemmas -/

/-- The replies of one DM-handler iteration on a within-limit payload,
as a function of the decode outcome alone. -/
theorem dmReplies_eq (sender data : List Nat)
    (h : ¬ MAX_MESSAGE_SIZE_BYTES < data.length) :
    dmReplies sender data =
      match decodeDirectMessage data with
      | some _ => [ackSuccessBytes]
      | none => [receivedBytes] := by
  unfold dmReplies dmStep
  rw [if_neg h]
  cases hdec : decodeDirectMessage data with
  | none => simp [List.filterMap]
  | some dm =>
    cases hkind : dmKindTag dm.message_type <;>
      simp [hkind, List.filterMap]

/-! ## Claim theorems -/

/-- C5: for every valid structured encoding of a `DirectMessage` or
`GroupMessage`, decoding the bytes, re-encoding the resulting value, and
decoding again yields a value equal to the original decoded value in all
fields. -/
theorem decode_encode_decode_roundtrip :
    (∀ (b : List Nat) (m : DirectMessage), decodeDirectMessage b = some m →
      decodeDirectMessage (encodeDirectMessage m) = some m) ∧
    (∀ (b : List Nat) (m : GroupMessage), decodeGroupMessage b = some m →
      decodeGroupMessage (encodeGroupMessage m) = some m) :=
  ⟨fun _ _ h => decodeDirectMessage_encode (decodeDirectMessage_wf h),
   fun _ _ h => decodeGroupMessage_encode (decodeGroupMessage_wf h)⟩

/-- Witness for C5 at concrete messages (a negative timestamp exercises
the zigzag path). -/
theorem decode_encode_decode_roundtrip_witness :
    decodeDirectMessage
        (encodeDirectMessage ⟨[97], [104, 105], -1, textBytes⟩) =
      some ⟨[97], [104, 105], -1, textBytes⟩ ∧
    decodeGroupMessage
        (encodeGroupMessage ⟨[97], [104, 105], 261, textBytes, [108]⟩) =
      some ⟨[97], [104, 105], 261, textBytes, [108]⟩ :=
  ⟨decode_encode_decode_roundtrip.1
      (encodeDirectMessage ⟨[97], [104, 105], -1, textBytes⟩)
      ⟨[97], [104, 105], -1, textBytes⟩ (by decide),
   decode_encode_decode_roundtrip.2
      (encodeGroupMessage ⟨[97], [104, 105], 261, textBytes, [108]⟩)
      ⟨[97], [104, 105], 261, textBytes, [108]⟩ (by decide)⟩

/-- C1: every within-limit inbound direct request gets exactly one reply:
the serialized `AckResponse{ack:true}` when the payload decodes as a
structured `DirectMessage` (whatever its kind), and the legacy plain-byte
token when structured decode fails. -/
theorem dm_consumer_exactly_one_reply (sender data : List Nat)
    (h : data.length ≤ MAX_MESSAGE_SIZE_BYTES) :
    (dmReplies sender data).length = 1 ∧
    (∀ dm, decodeDirectMessage data = some dm →
      dmReplies sender data = [ackSuccessBytes]) ∧
    (decodeDirectMessage data = none →
      dmReplies sender data = [receivedBytes]) := by
  have hr := dmReplies_eq sender data (Nat.not_lt.mpr h)
  refine ⟨?_, ?_, ?_⟩
  · rw [hr]; cases decodeDirectMessage data <;> rfl
  · intro dm hdm; rw [hr, hdm]
  · intro hdm; rw [hr, hdm]

/-- Witness for C1: the empty payload (structured decode fails) and a
well-formed encoded payload (structured decode succeeds). -/
theorem dm_consumer_exactly_one_reply_witness :
    (dmReplies [99] []).length = 1 ∧
    dmReplies [99] [] = [receivedBytes] ∧
    dmReplies [99] (encodeDirectMessage ⟨[], [104], 0, textBytes⟩) =
      [ackSuccessBytes] :=
  ⟨(dm_consumer_exactly_one_reply [99] [] (by decide)).1,
   (dm_consumer_exactly_one_reply [99] [] (by decide)).2.2 (by decide),
   (dm_consumer_exactly_one_reply [99]
      (encodeDirectMessage ⟨[], [104], 0, textBytes⟩) (by decide)).2.1
      ⟨[], [104], 0, textBytes⟩ (by decide)⟩

/-- C10: the exact plain-byte reply sent by the DM consumer on the
structured-decode-failure path is the very token the `/dm` dispatcher
recognizes as confirmed delivery (the `"✓"` mark). -/
theorem legacy_ack_token_roundtrip (sender data : List Nat)
    (hlen : data.length ≤ MAX_MESSAGE_SIZE_BYTES)
    (hdec : decodeDirectMessage data = none) :
    dmReplies sender data = [receivedBytes] ∧
    dmAckMark receivedBytes = checkMarkBytes ∧
    dmSendReport (.response receivedBytes) =
      .printedAck checkMarkBytes := by
  refine ⟨?_, by decide, by decide⟩
  rw [dmReplies_eq sender data (Nat.not_lt.mpr hlen), hdec]

/-- Witness for C10 at a concrete undecodable payload. -/
theorem legacy_ack_token_roundtrip_witness :
    dmReplies [99] [128] = [receivedBytes] ∧
    dmSendReport (.response receivedBytes) =
      .printedAck checkMarkBytes :=
  ⟨(legacy_ack_token_roundtrip [99] [128] (by decide) (by decide)).1,
   (legacy_ack_token_roundtrip [99] [128] (by decide) (by decide)).2.2⟩

/-- C6: oversized payloads are discarded by both consumers with no decode,
no reply, no registry update and no output; the Pub/Sub consumer also
drops, before decoding, messages on a foreign topic and self-echoes. -/
theorem consumers_drop_filtered (room myId : List Nat) (reg : Registry)
    (msg : InboundPubSub) (sender data : List Nat) :
    (MAX_MESSAGE_SIZE_BYTES < msg.data.length →
      pubsubStep room myId reg msg = (reg, none)) ∧
    (MAX_MESSAGE_SIZE_BYTES < data.length → dmStep sender data = []) ∧
    (msg.topic ≠ roomTopic room → pubsubStep room myId reg msg =
      (reg, none)) ∧
    (msg.sender = myId → pubsubStep room myId reg msg = (reg, none)) := by
  refine ⟨?_, ?_, ?_, ?_⟩ <;> intro h
  · unfold pubsubStep; rw [if_pos h]
  · unfold dmStep; rw [if_pos h]
  · unfold pubsubStep
    by_cases h1 : MAX_MESSAGE_SIZE_BYTES < msg.data.length
    · rw [if_pos h1]
    · rw [if_neg h1, if_pos h]
  · unfold pubsubStep
    by_cases h1 : MAX_MESSAGE_SIZE_BYTES < msg.data.length
    · rw [if_pos h1]
    · rw [if_neg h1]
      by_cases h2 : msg.topic ≠ roomTopic room
      · rw [if_pos h2]
      · rw [if_neg h2, if_pos h]

/-- Witness for C6: one oversized, foreign-topic, self-sent message. -/
theorem consumers_drop_filtered_witness :
    pubsubStep [108] [98] [] ⟨[], [98], List.replicate 65537 0⟩ =
      ([], none) ∧
    dmStep [98] (List.replicate 65537 0) = [] := by
  have hbig : MAX_MESSAGE_SIZE_BYTES <
      (List.replicate 65537 (0 : Nat)).length := by
    rw [List.length_replicate]
    decide
  exact ⟨(consumers_drop_filtered [108] [98] []
      ⟨[], [98], List.replicate 65537 0⟩ [98] (List.replicate 65537 0)).1
      hbig,
    (consumers_drop_filtered [108] [98] []
      ⟨[], [98], List.replicate 65537 0⟩ [98] (List.replicate 65537 0)).2.1
      hbig⟩

/-- C8: a `/dm` line whose identity argument is not 64 hex characters is
rejected before any send is attempted, and so is one whose message
exceeds the size limit. -/
theorem dm_rejects_invalid_before_send (line : List Nat) :
    (((((splitnByte 3 32 line).get? 1).getD []).length ≠
          MAX_IDENTITY_LENGTH ∨
        ¬ (((splitnByte 3 32 line).get? 1).getD []).all isHexDigit) →
      ∀ i m, dmCommand line ≠ DmCmdAction.send i m) ∧
    (MAX_MESSAGE_SIZE_BYTES <
        ((((splitnByte 3 32 line).get? 2).getD []).length) →
      ∀ i m, dmCommand line ≠ DmCmdAction.send i m) := by
  constructor <;> intro h i m <;> unfold dmCommand <;> split_ifs <;> simp

/-- Witness for C8: `"/dm abc hi"` (3-character identity) is rejected. -/
theorem dm_rejects_invalid_before_send_witness :
    dmCommand [47, 100, 109, 32, 97, 98, 99, 32, 104, 105] ≠
      DmCmdAction.send [97, 98, 99] [104, 105] :=
  (dm_rejects_invalid_before_send
    [47, 100, 109, 32, 97, 98, 99, 32, 104, 105]).1 (by decide) _ _

/-! ## Registry lemmas -/

/-- One `observe` keeps the registry within 1001 entries. -/
theorem observe_length_le (reg : Registry) (k v : List Nat)
    (h : reg.length ≤ 1001) : (observe reg k v).length ≤ 1001 := by
  simp only [observe]
  by_cases hlen : 1000 < reg.length
  · rw [if_pos hlen]
    simp [lookupName]
  · rw [if_neg hlen]
    cases hl : lookupName reg k
    · show ((k, v) :: reg).length ≤ 1001
      simp only [List.length_cons]
      omega
    · show reg.length ≤ 1001
      omega

/-- Any registry the program can build stays within 1001 entries. -/
theorem applyObserve_length_le (ops : List (List Nat × List Nat)) :
    (applyObserve ops).length ≤ 1001 := by
  unfold applyObserve
  suffices h : ∀ (l : List (List Nat × List Nat)) (reg : Registry),
      reg.length ≤ 1001 →
      (l.foldl (fun r kv => observe r kv.1 kv.2) reg).length ≤ 1001 by
    exact h ops [] (by simp)
  intro l
  induction l with
  | nil => intro reg h; simpa using h
  | cons kv t ih =>
    intro reg h
    exact ih _ (observe_length_le _ _ _ h)

/-- C2: the peer registry is bounded: an `observe` on a registry of more
than 1000 entries clears it in full before inserting (post-size exactly 1),
an `observe` on a registry of at most 1001 entries stays within 1001, and
consequently every registry built by the program holds at most 1001
entries. -/
theorem registry_bounded (reg : Registry) (k v : List Nat) :
    (1000 < reg.length → (observe reg k v).length = 1) ∧
    (reg.length ≤ 1001 → (observe reg k v).length ≤ 1001) ∧
    (∀ ops, (applyObserve ops).length ≤ 1001) := by
  refine ⟨?_, fun h => observe_length_le reg k v h,
    fun ops => applyObserve_length_le ops⟩
  intro h
  simp only [observe]
  rw [if_pos h]
  simp [lookupName]

/-- Witness for C2 at a concrete 1001-entry registry. -/
theorem registry_bounded_witness :
    1000 < ((List.range 1001).map fun i =>
      ([i], ([] : List Nat))).length ∧
    (observe ((List.range 1001).map fun i => ([i], ([] : List Nat)))
      [5] [6]).length = 1 := by
  have h : 1000 < ((List.range 1001).map fun i =>
      ([i], ([] : List Nat))).length := by
    rw [List.length_map, List.length_range]
    decide
  exact ⟨h, (registry_bounded _ [5] [6]).1 h⟩

/-- Counterexample to C3 as stated: on a (reachable) 1001-entry registry
containing the key, the clear-on-overflow path of `observe` replaces the
stored first-seen name by the newly observed one. -/
theorem registry_first_write_wins_counterexample :
    lookupName (([0], [1]) ::
      ((List.range 1000).map fun i => ([i + 1], [1]))) [0] = some [1] ∧
    lookupName (observe (([0], [1]) ::
        ((List.range 1000).map fun i => ([i + 1], [1]))) [0] [2]) [0] =
      some [2] ∧
    ([2] : List Nat) ≠ [1] := by
  refine ⟨rfl, ?_, by simp⟩
  have h : 1000 < ((([0], [1]) ::
      ((List.range 1000).map fun i => ([i + 1], [1]))) :
        Registry).length := by
    rw [List.length_cons, List.length_map, List.length_range]
    decide
  simp only [observe]
  rw [if_pos h]
  simp [lookupName]

/-- C3 amended: first-write-wins holds whenever the observe does not take
the clear-on-overflow path, i.e. on registries of at most 1000 entries: a
present key keeps its stored name under any further observation, and in
particular observing `(k, n1)` then `(k, n2)` on a fresh key leaves `n1`
stored (below the threshold). -/
theorem registry_first_write_wins_bounded (reg : Registry)
    (k v n1 n2 : List Nat) :
    (reg.length ≤ 1000 → lookupName reg k = some v →
      lookupName (observe reg k n2) k = some v) ∧
    (reg.length < 1000 → lookupName reg k = none →
      lookupName (observe (observe reg k n1) k n2) k = some n1) := by
  constructor
  · intro hlen hk
    simp only [observe]
    rw [if_neg (by omega), hk]
    exact hk
  · intro hlen hk
    have h1 : observe reg k n1 = (k, n1) :: reg := by
      simp only [observe]
      rw [if_neg (by omega), hk]
    rw [h1]
    simp only [observe]
    have hlen2 : ¬ 1000 < ((k, n1) :: reg).length := by
      simp only [List.length_cons]
      omega
    have hk2 : lookupName ((k, n1) :: reg) k = some n1 := by
      simp [lookupName]
    rw [if_neg hlen2, hk2]
    exact hk2

/-- Witness for the amended C3 at concrete registries. -/
theorem registry_first_write_wins_bounded_witness :
    lookupName (observe [([3], [4])] [3] [9]) [3] = some [4] ∧
    lookupName (observe (observe [] [1] [7]) [1] [8]) [1] = some [7] :=
  ⟨(registry_first_write_wins_bounded [([3], [4])] [3] [4] [] []).1
      (by decide) (by decide),
   (registry_first_write_wins_bounded [] [1] [] [7] [8]).2
      (by decide) (by decide)⟩

/-! ## UTF-8 and split lemmas -/

theorem utf8Next_split : ∀ (bs seq r : List Nat),
    utf8Next bs = some (seq, r) → bs = seq ++ r := by
  intro bs seq r h
  match bs with
  | [] => simp [utf8Next] at h
  | b :: rest =>
    simp only [utf8Next] at h
    split_ifs at h with h1 h2 h3 h4
    · simp at h
      obtain ⟨rfl, rfl⟩ := h
      rfl
    · match rest with
      | [] => simp at h
      | c1 :: r1 =>
        replace h : (if isCont c1 then some ([b, c1], r1) else none) =
            some (seq, r) := h
        split_ifs at h with hc
        simp at h
        obtain ⟨rfl, rfl⟩ := h
        rfl
    · match rest with
      | [] => simp at h
      | [c1] => simp at h
      | c1 :: c2 :: r2 =>
        replace h : (if sndByteOk b c1 && isCont c2 then
            some ([b, c1, c2], r2) else none) = some (seq, r) := h
        split_ifs at h with hc
        simp at h
        obtain ⟨rfl, rfl⟩ := h
        rfl
    · match rest with
      | [] => simp at h
      | [c1] => simp at h
      | [c1, c2] => simp at h
      | c1 :: c2 :: c3 :: r3 =>
        replace h : (if sndByteOk b c1 && isCont c2 && isCont c3 then
            some ([b, c1, c2, c3], r3) else none) = some (seq, r) := h
        split_ifs at h with hc
        simp at h
        obtain ⟨rfl, rfl⟩ := h
        rfl

theorem utf8LossyAux_of_valid : ∀ (fuel : Nat) (bs : List Nat),
    utf8ValidAux fuel bs = true → utf8LossyAux fuel bs = bs := by
  intro fuel
  induction fuel with
  | zero =>
    intro bs h
    cases bs with
    | nil => rfl
    | cons b rest => simp [utf8ValidAux] at h
  | succ f ih =>
    intro bs h
    cases bs with
    | nil => rfl
    | cons b rest =>
      cases hn : utf8Next (b :: rest) with
      | none =>
        unfold utf8ValidAux at h
        rw [hn] at h
        simp at h
      | some p =>
        obtain ⟨seq, r⟩ := p
        have hsplit := utf8Next_split _ _ _ hn
        have hv : utf8ValidAux f r = true := by
          unfold utf8ValidAux at h
          rw [hn] at h
          exact h
        calc utf8LossyAux (f + 1) (b :: rest)
            = seq ++ utf8LossyAux f r := by
              have hred : utf8LossyAux (f + 1) (b :: rest) =
                  match utf8Next (b :: rest) with
                  | some (seq, r) => seq ++ utf8LossyAux f r
                  | none => replacementBytes ++
                      utf8LossyAux f ((b :: rest).drop
                        (utf8BadLen (b :: rest))) := rfl
              rw [hred, hn]
        _ = seq ++ r := by rw [ih r hv]
        _ = b :: rest := hsplit.symm

theorem utf8Lossy_of_valid {bs : List Nat} (h : utf8Valid bs = true) :
    utf8Lossy bs = bs :=
  utf8LossyAux_of_valid _ _ h

theorem startsWith_self_append : ∀ (pat t : List Nat),
    startsWith pat (pat ++ t) = true := by
  intro pat t
  induction pat with
  | nil => rfl
  | cons p ps ih => simp [startsWith, ih]

/-- `split_once` around an occurrence whose leading byte appears nowhere
earlier in the string. -/
theorem splitOnce_append_head : ∀ (s t pat : List Nat) (f : Nat)
    (ps : List Nat), pat = f :: ps → f ∉ s →
    splitOnce (s ++ pat ++ t) pat = some (s, t) := by
  intro s
  induction s with
  | nil =>
    intro t pat f ps hpat hf
    subst hpat
    show splitOnce (f :: (ps ++ t)) (f :: ps) = some ([], t)
    unfold splitOnce
    rw [if_pos (by
      rw [show f :: (ps ++ t) = (f :: ps) ++ t from rfl]
      exact startsWith_self_append (f :: ps) t)]
    simp
  | cons c cs ih =>
    intro t pat f ps hpat hf
    have hfc : f ≠ c := by
      intro hcontra
      exact hf (by simp [hcontra])
    have hfs : f ∉ cs := fun hm => hf (List.mem_cons_of_mem c hm)
    show splitOnce (c :: (cs ++ pat ++ t)) pat = some (c :: cs, t)
    unfold splitOnce
    rw [if_neg (by
      subst hpat
      simp [startsWith]
      intro hcontra
      exact absurd hcontra hfc)]
    rw [ih t pat f ps hpat hfs]
    rfl

/-- C4: on a buffer that is valid legacy plain text of the form
`name@prefix: text` (split on the first `@` before the first `": "`), the
fallback extractor of the Pub/Sub consumer recovers `name` exactly; on any
buffer not matching the pattern — no `": "` occurrence, or no `@` before
the first `": "` — it falls back to the sender-identity prefix supplied by
the transport. -/
theorem legacy_name_extraction (name mid txt idPre : List Nat)
    (hColonName : 58 ∉ name) (hAtName : 64 ∉ name) (hColonMid : 58 ∉ mid)
    (hValid : utf8Valid (name ++ [64] ++ mid ++ [58, 32] ++ txt) = true) :
    legacySenderName
        (utf8Lossy (name ++ [64] ++ mid ++ [58, 32] ++ txt)) idPre =
      name ∧
    (∀ text, splitOnce text [58, 32] = none →
      legacySenderName text idPre = idPre) ∧
    (∀ text p rest2, splitOnce text [58, 32] = some (p, rest2) →
      splitOnce p [64] = none → legacySenderName text idPre = idPre) := by
  refine ⟨?_, ?_, ?_⟩
  · rw [utf8Lossy_of_valid hValid]
    have hnotin : 58 ∉ name ++ [64] ++ mid := by
      intro hm
      rcases List.mem_append.mp hm with hm1 | hm2
      · rcases List.mem_append.mp hm1 with hm3 | hm4
        · exact hColonName hm3
        · simp at hm4
      · exact hColonMid hm2
    have e1 : splitOnce (name ++ [64] ++ mid ++ [58, 32] ++ txt)
        [58, 32] = some (name ++ [64] ++ mid, txt) :=
      splitOnce_append_head (name ++ [64] ++ mid) txt [58, 32] 58 [32]
        rfl hnotin
    have e2 : splitOnce (name ++ [64] ++ mid) [64] = some (name, mid) :=
      splitOnce_append_head name mid [64] 64 [] rfl hAtName
    simp only [legacySenderName, e1, e2]
  · intro text h
    simp only [legacySenderName, h]
  · intro text p rest2 h1 h2
    simp only [legacySenderName, h1, h2]



/-- Witness for C4: `"A@aaaaaaaa: hi"` yields name `"A"`, and `"hi"`
(no pattern) falls back to the transport prefix. -/
theorem legacy_name_extraction_witness :
    legacySenderName (utf8Lossy ([65] ++ [64] ++ [97, 97, 97, 97, 97, 97,
      97, 97] ++ [58, 32] ++ [104, 105])) [120] = [65] ∧
    legacySenderName [104, 105] [120] = [120] :=
  ⟨(legacy_name_extraction [65] [97, 97, 97, 97, 97, 97, 97, 97] [104, 105]
      [120] (by decide) (by decide) (by decide) (by decide)).1,
   (legacy_name_extraction [65] [97, 97, 97, 97, 97, 97, 97, 97] [104, 105]
      [120] (by decide) (by decide) (by decide) (by decide)).2.1
      [104, 105] (by decide)⟩

/-! ## Pub/Sub structured-render lemmas -/

/-- Looking up a freshly observed key yields the observed name. -/
theorem lookupName_observe_fresh (reg : Registry) (k v : List Nat)
    (h : lookupName reg k = none) :
    lookupName (observe reg k v) k = some v := by
  simp only [observe]
  by_cases hlen : 1000 < reg.length
  · rw [if_pos hlen]
    simp [lookupName]
  · rw [if_neg hlen, h]
    simp [lookupName]

/-- Counterexample to C9 as stated: with both registries fresh, node A
(display name `"Alice"`, identity 64 `'a'`s) broadcasting the structured
`GroupMessage` `"hi"` to room `"lobby"` makes B render
`"aaaaaaaa@aaaaaaaa: hi"` — the sender's prefix in the name position, not
`"Alice@aaaaaaaa: hi"` — and register A's prefix under A's prefix, not
under `"Alice"`: the structured wire format carries no display name. -/
theorem structured_broadcast_render_counterexample :
    pubsubStep [108, 111, 98, 98, 121] (List.replicate 64 98) []
      ⟨roomTopic [108, 111, 98, 98, 121], List.replicate 64 97,
        encodeGroupMessage
          ⟨[48], [104, 105], 0, textBytes, [108, 111, 98, 98, 121]⟩⟩ =
      ([(List.replicate 8 97, List.replicate 8 97)],
        some (List.replicate 8 97 ++ [64] ++ List.replicate 8 97 ++
          [58, 32] ++ [104, 105])) ∧
    List.replicate 8 97 ++ [64] ++ List.replicate 8 97 ++ [58, 32] ++
        [104, 105] ≠
      [65, 108, 105, 99, 101] ++ [64] ++ List.replicate 8 97 ++ [58, 32] ++
        [104, 105] ∧
    lookupName [(List.replicate 8 97, List.replicate 8 97)]
        (List.replicate 8 97) ≠ some [65, 108, 105, 99, 101] := by
  refine ⟨by decide, by decide, by decide⟩

/-- C9 amended: when a structured `GroupMessage` broadcast arrives from a
sender whose prefix is not yet in the receiver's registry, the receiver
renders `"<prefix>@<prefix>: <content>"` — the display name defaults to
the sender's 8-character identity prefix, because the structured format
carries no name — and registers the prefix under the prefix itself; the
broadcast sender's display name would be shown only if the registry
already mapped the prefix to it (learned from legacy plain-text traffic).
-/
theorem structured_broadcast_render (room myId senderId : List Nat)
    (reg : Registry) (gm : GroupMessage) (hwf : WfGroupMessage gm)
    (hsize : (encodeGroupMessage gm).length ≤ MAX_MESSAGE_SIZE_BYTES)
    (hne : ¬ senderId = myId)
    (hfresh : lookupName reg (shortId senderId) = none) :
    pubsubStep room myId reg
        ⟨roomTopic room, senderId, encodeGroupMessage gm⟩ =
      (observe reg (shortId senderId) (shortId senderId),
        some (sanitize_text (shortId senderId ++ [64] ++ shortId senderId
          ++ [58, 32] ++ gm.content))) ∧
    lookupName (pubsubStep room myId reg
        ⟨roomTopic room, senderId, encodeGroupMessage gm⟩).1
      (shortId senderId) = some (shortId senderId) := by
  have hstep : pubsubStep room myId reg
      ⟨roomTopic room, senderId, encodeGroupMessage gm⟩ =
      (observe reg (shortId senderId) (shortId senderId),
        some (sanitize_text (shortId senderId ++ [64] ++ shortId senderId
          ++ [58, 32] ++ gm.content))) := by
    unfold pubsubStep
    rw [if_neg (Nat.not_lt.mpr hsize)]
    rw [if_neg (by simp)]
    rw [if_neg hne]
    simp [decodeGroupMessage_encode hwf, hfresh]
  refine ⟨hstep, ?_⟩
  rw [hstep]
  exact lookupName_observe_fresh reg _ _ hfresh

/-- Witness for the amended C9 at the concrete scenario of the
counterexample. -/
theorem structured_broadcast_render_witness :
    pubsubStep [108, 111, 98, 98, 121] (List.replicate 64 98) []
      ⟨roomTopic [108, 111, 98, 98, 121], List.replicate 64 97,
        encodeGroupMessage
          ⟨[48], [104, 105], 0, textBytes, [108, 111, 98, 98, 121]⟩⟩ =
      (observe [] (shortId (List.replicate 64 97))
          (shortId (List.replicate 64 97)),
        some (sanitize_text (shortId (List.replicate 64 97) ++ [64] ++
          shortId (List.replicate 64 97) ++ [58, 32] ++ [104, 105]))) :=
  (structured_broadcast_render [108, 111, 98, 98, 121]
    (List.replicate 64 98) (List.replicate 64 97) []
    ⟨[48], [104, 105], 0, textBytes, [108, 111, 98, 98, 121]⟩
    (by decide) (by decide) (by decide) (by decide)).1

/-! ## Ack-interpretation lemmas -/

/-- Counterexample to C7 as stated: `/contact` does not recognize the
legacy acknowledgment token.  It renders the legacy-token response
identically to an arbitrary unrecognized response (`"sent (legacy peer)"`),
and distinctly from the structured-ack confirmation (`"sent"`), so for
`/contact` the legacy token is not counted as confirmed delivery while
other responses are rendered no differently from it. -/
theorem contact_legacy_token_counterexample :
    contactStatus receivedBytes = sentLegacyBytes ∧
    contactStatus [7] = sentLegacyBytes ∧
    contactStatus ackSuccessBytes = sentBytes ∧
    sentLegacyBytes ≠ sentBytes := by
  refine ⟨rfl, rfl, rfl, by decide⟩

/-- C7 amended: for `/dm`, a structured ack with `ack=true` or the exact
legacy token both render the confirmed mark `"✓"`, any other response the
ambiguous `"?"`, never a hard failure; for `/contact`, a structured ack
with `ack=true` renders `"sent"` and any other response — the legacy token
not being specially recognized — renders `"sent (legacy peer)"`; for both
commands a timeout is reported as the distinct peer-unreachable condition,
not as the transport-error condition. -/
theorem ack_interpretation (resp : List Nat) :
    (decodeAckResponse resp = some true →
      dmSendReport (.response resp) = .printedAck checkMarkBytes ∧
      contactSendReport (.response resp) = .printedAck sentBytes) ∧
    dmSendReport (.response receivedBytes) = .printedAck checkMarkBytes ∧
    (decodeAckResponse resp ≠ some true → utf8Lossy resp ≠ receivedBytes →
      dmSendReport (.response resp) = .printedAck questionMarkBytes) ∧
    (decodeAckResponse resp ≠ some true →
      contactSendReport (.response resp) = .printedAck sentLegacyBytes) ∧
    dmSendReport .timeout = .unreachable ∧
    dmSendReport .sendError = .failedSend ∧
    contactSendReport .timeout = .unreachable ∧
    contactSendReport .sendError = .failedSend ∧
    CmdReport.unreachable ≠ CmdReport.failedSend := by
    refine ⟨?_, rfl, ?_, ?_, rfl, rfl, rfl, rfl, by simp⟩
    · intro hd
      simp [dmSendReport, contactSendReport, dmAckMark, contactStatus, hd]
    · intro hd hl
      cases hdec : decodeAckResponse resp with
      | none => simp [dmSendReport, dmAckMark, hdec, hl]
      | some b =>
        cases b
        · simp [dmSendReport, dmAckMark, hdec, hl]
        · exact absurd hdec hd
    · intro hd
      cases hdec : decodeAckResponse resp with
      | none => simp [contactSendReport, contactStatus, hdec]
      | some b =>
        cases b
        · simp [contactSendReport, contactStatus, hdec]
        · exact absurd hdec hd

/-- Witness for the amended C7 at concrete responses. -/
theorem ack_interpretation_witness :
    dmSendReport (.response [1]) = .printedAck checkMarkBytes ∧
    contactSendReport (.response [1]) = .printedAck sentBytes ∧
    dmSendReport (.response [0]) = .printedAck questionMarkBytes ∧
    contactSendReport (.response [0]) = .printedAck sentLegacyBytes :=
  ⟨((ack_interpretation [1]).1 (by decide)).1,
   ((ack_interpretation [1]).1 (by decide)).2,
   (ack_interpretation [0]).2.2.1 (by decide) (by decide),
   (ack_interpretation [0]).2.2.2.1 (by decide)⟩

end Six7
